import Mathlib

/-!
Verification of the AeroHire evaluation and integrity-scoring core.

Text is modelled as `List Char` (the JS string it embeds is noted at each
definition).  Severities, verdicts and consistency flags are closed
enumerations.  Numeric scores are rationals, timestamps are integers
(epoch milliseconds, as produced by `Date.now()`).
-/

/-- Telemetry severity enumeration (`LOW | MEDIUM | HIGH`). -/
inductive Severity where
  | LOW
  | MEDIUM
  | HIGH
deriving DecidableEq, Repr

/-- Hiring verdict enumeration (`HIRE | NO_HIRE | REVIEW`). -/
inductive Verdict where
  | HIRE
  | NO_HIRE
  | REVIEW
deriving DecidableEq, Repr

/-- Resume-consistency flag (`ALIGNED | MISMATCH`). -/
inductive ConsistencyFlag where
  | ALIGNED
  | MISMATCH
deriving DecidableEq, Repr

/-- JS `String.prototype.toLowerCase` restricted to the ASCII range used here. -/
def toLowerStr (s : List Char) : List Char := s.map Char.toLower

/-- The `highSignalSkills` list of `detectResumeConsistency`
(frontend `CandidateDetail.tsx`). -/
def highSignalSkills : List (List Char) :=
  [("python").data, ("java").data, ("javascript").data, ("sql").data,
   ("c++").data, ("c#").data, ("fastapi").data, ("react").data,
   ("node").data, ("nodejs").data]

/-- Function `detectResumeConsistency` from the recruiter detail view: flags `MISMATCH`
when stated experience (null coalesced to 0) is at least 5 years while the
technical score is below 60 or no submission passed, or when a lower-cased
resume skill is on the high-signal list while the technical score is below
50; otherwise `ALIGNED`. -/
def detectResumeConsistency (resumeSkills : List (List Char))
    (experienceYears : Option ℚ) (technicalScore : ℚ)
    (passedSubmissions : Nat) : ConsistencyFlag :=
  if (experienceYears.getD 0) ≥ 5 ∧ (technicalScore < 60 ∨ passedSubmissions = 0) then
    ConsistencyFlag.MISMATCH
  else if ((resumeSkills.map toLowerStr).any fun s => highSignalSkills.contains s)
      ∧ technicalScore < 50 then
    ConsistencyFlag.MISMATCH
  else
    ConsistencyFlag.ALIGNED

/-- The mismatch condition exactly as the claim words it: stated experience
strictly exceeds the 5-year threshold (rather than the at-least-5 of the code),
with the same weak-score / no-pass / high-signal-skill clauses. -/
def claimMismatchCondition (resumeSkills : List (List Char))
    (experienceYears : Option ℚ) (technicalScore : ℚ)
    (passedSubmissions : Nat) : Bool :=
  ((experienceYears.getD 0) > 5 ∧ (technicalScore < 60 ∨ passedSubmissions = 0))
    ∨ (((resumeSkills.map toLowerStr).any fun s => highSignalSkills.contains s)
        ∧ technicalScore < 50)

/-- Candidate facts as consumed by the recruiter detail view; the verdict
field rides along so independence from it can be stated. -/
structure CandidateFacts where
  resumeSkills : List (List Char)
  experienceYears : Option ℚ
  technicalScore : ℚ
  passedSubmissions : Nat
  hiringRecommendation : Option Verdict

/-- The `resumeConsistency` value computed at the `CandidateDetail` call site:
only the four resume/score inputs are consulted. -/
def resumeConsistencyOf (c : CandidateFacts) : ConsistencyFlag :=
  detectResumeConsistency c.resumeSkills c.experienceYears
    c.technicalScore c.passedSubmissions

/-! ### Test harness report (modelled from the spec) -/

/-- Per-test outcome status (`passed | failed | error`). -/
inductive TestStatus where
  | passed
  | failed
  | error
deriving DecidableEq, Repr

/-- Aggregate report over one submission run, mirroring the
`CodeSubmitResponse` shape declared in the frontend API client. -/
structure ExecutionReport where
  tests_passed : Nat
  tests_total : Nat
  execution_time_ms : ℚ
  is_passed : Bool
  mock_mode : Bool
deriving Repr

/-- Modelled from the spec: the Test Harness aggregation step of
`backend/app/services/docker_sandbox.py` (not among the provided sources).
Per the spec it counts passed tests over all test results, reports the total,
and sets the overall pass boolean to all-passed over a nonempty suite. -/
def runTestSuiteReport (results : List TestStatus) (mock : Bool) (time : ℚ) :
    ExecutionReport where
  tests_passed := results.countP fun r => r == TestStatus.passed
  tests_total := results.length
  execution_time_ms := time
  is_passed := decide (0 < results.length) && results.all fun r => r == TestStatus.passed
  mock_mode := mock

/-! ### Integrity score (modelled from the spec) -/

/-- One behavioral integrity event observed during a session. -/
structure IntegrityEvent where
  eventType : List Char
  severity : Severity
  timestamp : Int
deriving Repr

/-- Severity weights used by the Integrity Aggregator. -/
def severityWeight : Severity → Int
  | Severity.LOW => 2
  | Severity.MEDIUM => 5
  | Severity.HIGH => 10

/-- Modelled from the spec: the Integrity Aggregator of
`backend/app/api/v1/assessment.py` (not among the provided sources) starts
at 100, subtracts the severity weight of each event in order, and floors
the result at 0. -/
def computeIntegrityScore (events : List IntegrityEvent) : Int :=
  max 0 (events.foldl (fun acc e => acc - severityWeight e.severity) 100)

/-! ### Per-event integrity rationale (`CandidateDetail.tsx`) -/

/-- Chart severity values (`LOW | MED | MEDIUM | HIGH` in `ChartDataPoint`). -/
inductive ChartSeverity where
  | LOW
  | MED
  | MEDIUM
  | HIGH
deriving DecidableEq, Repr

/-- JS `String.prototype.toUpperCase` restricted to the ASCII range used here. -/
def toUpperStr (s : List Char) : List Char := s.map Char.toUpper

/-- First-match lookup in an association list, mirroring a JS
`Record<string, string>` indexed access. -/
def findRule : List (List Char × List Char) → List Char → Option (List Char)
  | [], _ => none
  | (k, v) :: rest, key => if k = key then some v else findRule rest key

/-- The `INTEGRITY_RULES` table, in source order. -/
def INTEGRITY_RULES : List (List Char × List Char) :=
  [(("TAB_SWITCH").data,
    ("Tab switch detected. Frequent switches in a short window raise severity.").data),
   (("COPY_PASTE_DETECTED").data,
    ("Large paste detected in the editor (possible copy/paste).").data),
   (("MULTIPLE_FACES").data,
    ("Multiple faces detected in the camera frame.").data),
   (("FACE_NOT_DETECTED").data,
    ("Face not detected for a sustained period.").data),
   (("SUSPICIOUS_BEHAVIOR").data,
    ("Unusual motion detected in the camera feed.").data),
   (("WEBCAM_DISABLED").data,
    ("Camera disabled during assessment.").data),
   (("WEB_CAM_DISABLED").data,
    ("Camera disabled during assessment.").data)]

/-- Fallback rationale for event types outside `INTEGRITY_RULES`. -/
def defaultIntegrityRationale : List Char :=
  ("Integrity event recorded based on proctoring signals.").data

/-- The `base` string of `getIntegrityRationale`: rule-table lookup of the
uppercased event type, falling back to the default string. -/
def integrityRationaleBase (eventType : List Char) : List Char :=
  (findRule INTEGRITY_RULES (toUpperStr eventType)).getD defaultIntegrityRationale

/-- Function `getIntegrityRationale` from `CandidateDetail.tsx`: uppercases the event
type, looks it up in `INTEGRITY_RULES` (falling back to the default string),
and appends a severity-specific suffix for the tab-switch and
face-not-detected special cases. -/
def getIntegrityRationale (eventType : List Char) (severity : ChartSeverity) : List Char :=
  if toUpperStr eventType = ("TAB_SWITCH").data ∧ severity = ChartSeverity.HIGH then
    integrityRationaleBase eventType ++
      (" Multiple rapid switches triggered HIGH severity.").data
  else if toUpperStr eventType = ("TAB_SWITCH").data ∧
      (severity = ChartSeverity.MED ∨ severity = ChartSeverity.MEDIUM) then
    integrityRationaleBase eventType ++
      (" Repeated switching flagged as MED severity.").data
  else if toUpperStr eventType = ("FACE_NOT_DETECTED").data ∧ severity = ChartSeverity.HIGH then
    integrityRationaleBase eventType ++
      (" Extended absence escalated to HIGH.").data
  else integrityRationaleBase eventType

/-! ### Originality breakdown and chart percentages (`CandidateDetail.tsx`) -/

/-- Typed/pasted character counts (`CharBreakdown` in the API client). -/
structure CharBreakdown where
  typed : Nat
  pasted : Nat
deriving DecidableEq, Repr

/-- The fields of a `CodeSubmission` consumed by the recruiter detail view. -/
structure CodeSubmission where
  question_id : Nat
  is_passed : Bool
  tests_passed : Nat
  tests_total : Nat
  char_breakdown : Option CharBreakdown
deriving Repr

/-- The `originalityBreakdown` reduce in `CandidateDetail`: field-wise
accumulation of the char breakdown of each submission, a missing breakdown
contributing zero to both fields. -/
def originalityBreakdown (submissions : List CodeSubmission) : CharBreakdown :=
  submissions.foldl
    (fun acc s =>
      let b := s.char_breakdown.getD ⟨0, 0⟩
      ⟨acc.typed + b.typed, acc.pasted + b.pasted⟩)
    ⟨0, 0⟩

/-- The rounding operation in the words of the claim: the integer nearest to
q, halves rounding up, as a floor over ℚ.  This is also the ES `Math.round`
semantics on the exact value of its (double) argument. -/
def specRound (q : ℚ) : ℤ := ⌊q + 1 / 2⌋

/-- Nonnegative rationals are carried as unreduced fractions
numerator/denominator of naturals (denominator positive); every quantity in
the originality chart is nonnegative. -/
def fracVal (a : Nat × Nat) : ℚ := (a.1 : ℚ) / (a.2 : ℚ)

/-- Round-to-nearest with ties to even of the fraction n/d (intended in the
binary64 significand range) to a natural: compare twice the remainder with
the denominator. -/
def roundTiesEvenFrac (n d : Nat) : Nat :=
  if 2 * (n % d) < d then n / d
  else if d < 2 * (n % d) then n / d + 1
  else if (n / d) % 2 = 0 then n / d else n / d + 1

/-- Scale the positive fraction n/d into the binary64 significand range
[2^52, 2^53) by doubling the numerator or the denominator, tracking the
binary exponent; the fuel bound 2200 covers every finite binary64
magnitude. -/
def normalizeFrac : Nat → Nat → Nat → ℤ → Nat × Nat × ℤ
  | 0, n, d, e => (n, d, e)
  | fuel + 1, n, d, e =>
    if n < 2 ^ 52 * d then normalizeFrac fuel (2 * n) d (e - 1)
    else if 2 ^ 53 * d ≤ n then normalizeFrac fuel n (2 * d) (e + 1)
    else (n, d, e)

/-- The IEEE-754 binary64 (JS number) value nearest to the nonnegative
fraction n/d, as a fraction again: scale into the 53-bit significand range,
round to nearest with ties to even, and scale back by the binary exponent.
Exact over the whole normal range of doubles; the subnormal fringe and
overflow to infinity, far outside the domain of character counts and
percentages, are not modelled. -/
def roundToDoubleFrac (n d : Nat) : Nat × Nat :=
  if n = 0 then (0, 1)
  else if 0 ≤ (normalizeFrac 2200 n d 0).2.2 then
    (roundTiesEvenFrac (normalizeFrac 2200 n d 0).1 (normalizeFrac 2200 n d 0).2.1 *
      2 ^ (normalizeFrac 2200 n d 0).2.2.toNat, 1)
  else
    (roundTiesEvenFrac (normalizeFrac 2200 n d 0).1 (normalizeFrac 2200 n d 0).2.1,
      2 ^ (-(normalizeFrac 2200 n d 0).2.2).toNat)

/-- JS number addition on nonnegative values: exact fraction sum rounded to
binary64. -/
def jsAddF (a b : Nat × Nat) : Nat × Nat :=
  roundToDoubleFrac (a.1 * b.2 + b.1 * a.2) (a.2 * b.2)

/-- JS number multiplication on nonnegative values: exact fraction product
rounded to binary64. -/
def jsMulF (a b : Nat × Nat) : Nat × Nat :=
  roundToDoubleFrac (a.1 * b.1) (a.2 * b.2)

/-- JS number division on nonnegative values: exact fraction quotient
rounded to binary64. -/
def jsDivF (a b : Nat × Nat) : Nat × Nat :=
  roundToDoubleFrac (a.1 * b.2) (a.2 * b.1)

/-- ES `Math.round` on a nonnegative double carried as a fraction: the floor
of n/d + 1/2, computed in integers. -/
def jsMathRound (a : Nat × Nat) : Nat := (2 * a.1 + a.2) / (2 * a.2)

/-- Value `typedPercent` as computed by `OriginalityChart`:
`Math.round((typed / total) * 100)` when the total is positive, else 0, with
the total, the quotient and the product all evaluated in binary64
arithmetic as the program does. -/
def typedPercent (b : CharBreakdown) : ℤ :=
  if 0 < (jsAddF (b.typed, 1) (b.pasted, 1)).1 then
    (jsMathRound (jsMulF (jsDivF (b.typed, 1) (jsAddF (b.typed, 1) (b.pasted, 1)))
      (100, 1)) : ℤ)
  else 0

/-- Value `pastedPercent` as computed by `OriginalityChart`: `100 - typedPercent`
when the total is positive, else 0. -/
def pastedPercent (b : CharBreakdown) : ℤ :=
  if 0 < (jsAddF (b.typed, 1) (b.pasted, 1)).1 then 100 - typedPercent b else 0

/-! ### Telemetry event producers (`Assessment.tsx`) -/

/-- One step of the `handleVisibilityChange` tab-switch handler: drop stored
switch timestamps 60 seconds old or older, push the current time, and pick
HIGH severity when at least 3 switches remain in the window (counting the
current one), else MEDIUM.  The event is logged unconditionally. -/
def tabSwitchStep (state : List Int) (now : Int) : List Int × Severity :=
  let kept := state.filter fun ts => now - ts < 60000
  let st := kept ++ [now]
  (st, if 3 ≤ st.length then Severity.HIGH else Severity.MEDIUM)

/-- The log produced by running the tab-switch handler over a sequence of
tab-switch times: one TAB_SWITCH event per visibility change. -/
def tabSwitchRun (state : List Int) : List Int → List (Int × Severity)
  | [] => []
  | t :: ts => (t, (tabSwitchStep state t).2) :: tabSwitchRun (tabSwitchStep state t).1 ts

/-- The window state after running the tab-switch handler over a sequence. -/
def tabSwitchRunState (state : List Int) : List Int → List Int
  | [] => state
  | t :: ts => tabSwitchRunState (tabSwitchStep state t).1 ts

/-- The 15-second cooldown gate shared by the paste and camera telemetry
producers (`lastTelemetryRef`): an event at time t is appended only when
t minus the last appended time exceeds 15000 ms, updating that time. -/
def cooldownRun (last : Int) : List Int → List Int
  | [] => []
  | t :: ts =>
    if t - last > 15000 then t :: cooldownRun t ts else cooldownRun last ts

/-! ### AI rationale parsing (`parseAIReport` in `CandidateDetail.tsx`) -/

/-- JS regex `\s` on the whitespace characters relevant here (space, tab,
newline, vertical tab, form feed, carriage return, NBSP, BOM). -/
def isJsSpace (c : Char) : Bool :=
  c.toNat = 32 || c.toNat = 9 || c.toNat = 10 || c.toNat = 11 ||
  c.toNat = 12 || c.toNat = 13 || c.toNat = 160 || c.toNat = 65279

/-- Characters admitted by the evidence-tag class `[A-Za-z0-9._-]`. -/
def isTagChar (c : Char) : Bool :=
  (65 ≤ c.toNat && c.toNat ≤ 90) || (97 ≤ c.toNat && c.toNat ≤ 122) ||
  (48 ≤ c.toNat && c.toNat ≤ 57) || c.toNat = 46 || c.toNat = 95 || c.toNat = 45

/-- Characters admitted by the lookahead class `[A-Z ]` under the `i` flag. -/
def isHeaderChar (c : Char) : Bool :=
  (65 ≤ c.toNat && c.toNat ≤ 90) || (97 ≤ c.toNat && c.toNat ≤ 122) || c.toNat = 32

/-- JS `String.prototype.trim`: strip leading and trailing whitespace. -/
def trimStr (s : List Char) : List Char :=
  ((s.dropWhile isJsSpace).reverse.dropWhile isJsSpace).reverse

/-- JS `replace` of trailing whitespace, the call chain step matching the regex anchored at the end of the line. -/
def rstripStr (s : List Char) : List Char :=
  (s.reverse.dropWhile isJsSpace).reverse

/-- Case-insensitive character comparison, as under the regex `i` flag
(ASCII simple case folding). -/
def charCI (a b : Char) : Bool := a.toLower == b.toLower

/-- Case-insensitive prefix test. -/
def startsWithCI : List Char → List Char → Bool
  | [], _ => true
  | _ :: _, [] => false
  | p :: ps, c :: cs => charCI p c && startsWithCI ps cs

/-- Case-insensitive substring test (scan over every suffix). -/
def containsCI (pat : List Char) : List Char → Bool
  | [] => startsWithCI pat []
  | c :: cs => startsWithCI pat (c :: cs) || containsCI pat cs

/-- All suffixes of a list, longest first, ending with the empty suffix. -/
def suffixes : List Char → List (List Char)
  | [] => [[]]
  | c :: cs => (c :: cs) :: suffixes cs

/-- The literal section header `[LABEL]:`. -/
def sectionHeader (label : List Char) : List Char :=
  ('[' :: label) ++ ([']', ':'])

/-- The lookahead `\n\[[A-Z ]+\]:` (with the `i` flag): a newline, an opening
bracket, a nonempty run of header characters, then a closing bracket and a
colon.  Content capture stops right before such a boundary. -/
def isSectionBoundary : List Char → Bool
  | '\n' :: '[' :: rest =>
    let run := rest.takeWhile isHeaderChar
    !run.isEmpty && (match rest.drop run.length with
      | ']' :: ':' :: _ => true
      | _ => false)
  | _ => false

/-- The lazy capture `([\s\S]*?)` up to the section boundary or the end of
the input. -/
def takeUntilBoundary : List Char → List Char
  | [] => []
  | c :: cs => if isSectionBoundary (c :: cs) then [] else c :: takeUntilBoundary cs

/-- Attempt the section regex at the current position: match the header
case-insensitively, greedily skip whitespace, and capture lazily up to the
next boundary or the end. -/
def matchSectionAt (label : List Char) (s : List Char) : Option (List Char) :=
  if startsWithCI (sectionHeader label) s then
    some (takeUntilBoundary ((s.drop (sectionHeader label).length).dropWhile isJsSpace))
  else none

/-- Leftmost match of the section regex over the whole text. -/
def findSection (label : List Char) : List Char → Option (List Char)
  | [] => none
  | c :: cs =>
    match matchSectionAt label (c :: cs) with
    | some content => some content
    | none => findSection label cs

/-- Function `getSection` of `parseAIReport`: the trimmed capture of the leftmost
match, or the empty string when the regex does not match. -/
def getSection (label : List Char) (text : List Char) : List Char :=
  match findSection label text with
  | some content => trimStr content
  | none => []

/-- Attempt `\[VERDICT\]:\s*(HIRE|NO_HIRE|REVIEW)` (with the `i` flag) at
the current position, alternatives in source order; the captured word is
upper-cased into the verdict enumeration. -/
def matchVerdictAt (s : List Char) : Option Verdict :=
  if startsWithCI (sectionHeader (("VERDICT").data)) s then
    let rest := (s.drop (sectionHeader (("VERDICT").data)).length).dropWhile isJsSpace
    if startsWithCI (("HIRE").data) rest then some Verdict.HIRE
    else if startsWithCI (("NO_HIRE").data) rest then some Verdict.NO_HIRE
    else if startsWithCI (("REVIEW").data) rest then some Verdict.REVIEW
    else none
  else none

/-- Leftmost match of the verdict regex over the whole text. -/
def findVerdict : List Char → Option Verdict
  | [] => none
  | c :: cs =>
    match matchVerdictAt (c :: cs) with
    | some v => some v
    | none => findVerdict cs

/-- One parsed strength/risk bullet, optionally carrying an evidence tag. -/
structure ParsedBullet where
  text : List Char
  evidence : Option (List Char)
deriving DecidableEq, Repr

/-- The parsed five-section rationale shape. -/
structure ParsedRationale where
  verdict : Option Verdict
  strengths : List ParsedBullet
  risks : List ParsedBullet
  summary : List Char
deriving DecidableEq, Repr

/-- Split on every newline, keeping empty segments, as JS `split("\n")`. -/
def splitLines : List Char → List (List Char)
  | [] => [[]]
  | c :: cs =>
    if c = '\n' then [] :: splitLines cs
    else
      match splitLines cs with
      | l :: ls => (c :: l) :: ls
      | [] => [[c]]

/-- Characters of the bullet-marker class in the source literal
`/^[\\-â€¢]\\s*/`: the escaped backslash starts a range up to the mojibake
character U+00E2, joined with U+20AC and U+00A2 (the latter already inside
the range). -/
def isBulletClassChar (c : Char) : Bool :=
  (92 ≤ c.toNat && c.toNat ≤ 226) || c.toNat = 8364 || c.toNat = 162

/-- Bullet-marker stripping step of `parseBullets`: because the backslashes are doubled
inside a regex literal, the pattern demands one class character, then a
literal backslash, then a run of the letter s; only that prefix is removed. -/
def stripBulletMarker (line : List Char) : List Char :=
  match line with
  | c1 :: c2 :: rest =>
    if isBulletClassChar c1 && c2 = '\\' then rest.dropWhile (fun c => c = 's')
    else line
  | _ => line

/-- Attempt `EVIDENCE:\s*([A-Za-z0-9._-]+)` (with the `i` flag) at the
current position: the keyword case-insensitively, greedy whitespace, then a
nonempty greedy tag.  Returns the tag and the rest after the match. -/
def matchCiteAt (s : List Char) : Option (List Char × List Char) :=
  if startsWithCI (("EVIDENCE:").data) s then
    let r := (s.drop 9).dropWhile isJsSpace
    let tag := r.takeWhile isTagChar
    if tag.isEmpty then none else some (tag, r.drop tag.length)
  else none

/-- Leftmost match of the evidence regex: returns the text before the match,
the tag, and the text after the match. -/
def findCite : List Char → Option (List Char × List Char × List Char)
  | [] => none
  | c :: cs =>
    match matchCiteAt (c :: cs) with
    | some (tag, rest) => some ([], tag, rest)
    | none =>
      match findCite cs with
      | some (p, tag, rest) => some (c :: p, tag, rest)
      | none => none

/-- The per-line step of `parseBullets`: extract the first evidence citation
if any, delete exactly that first match from the line, strip trailing
whitespace, and trim. -/
def parseBulletLine (line : List Char) : ParsedBullet :=
  match findCite line with
  | some (p, tag, rest) => ⟨trimStr (rstripStr (p ++ rest)), some tag⟩
  | none => ⟨trimStr (rstripStr line), none⟩

/-- Function `parseBullets` of `parseAIReport`: split the section into lines, strip
the (ineffective) bullet-marker prefix and trim, drop empty lines, then
parse each line into a bullet. -/
def parseBullets (section' : List Char) : List ParsedBullet :=
  (((splitLines section').map fun line => trimStr (stripBulletMarker line)).filter
      fun l => !l.isEmpty).map parseBulletLine

/-- The fixed rationale returned for a null or empty report text.  In the
source the two bullet lists hold bare strings at this branch; they are
modelled as bullets with those texts and no evidence. -/
def pendingRationale : ParsedRationale where
  verdict := none
  strengths := [⟨("Assessment data pending").data, none⟩]
  risks := [⟨("No analysis available yet").data, none⟩]
  summary := ("Awaiting assessment completion for AI analysis.").data

/-- Function `parseAIReport` on a non-null, nonempty text: verdict by regex scan,
strengths and risks by sectioned bullet parsing with fixed placeholder
bullets when empty, summary with a fixed placeholder when empty. -/
def parseAIReportText (text : List Char) : ParsedRationale where
  verdict := findVerdict text
  strengths :=
    if parseBullets (getSection (("STRENGTHS").data) text) = [] then
      [⟨("Technical assessment completed").data, none⟩]
    else parseBullets (getSection (("STRENGTHS").data) text)
  risks :=
    if parseBullets (getSection (("RISKS").data) text) = [] then
      [⟨("No major risks highlighted").data, none⟩]
    else parseBullets (getSection (("RISKS").data) text)
  summary :=
    if getSection (("SUMMARY").data) text = [] then
      ("Awaiting assessment completion for AI analysis.").data
    else getSection (("SUMMARY").data) text

/-- Function `parseAIReport`: a falsy input (null or the empty string) yields the
pending rationale, anything else is parsed by section headers. -/
def parseAIReport (text : Option (List Char)) : ParsedRationale :=
  match text with
  | none => pendingRationale
  | some t => if t = [] then pendingRationale else parseAIReportText t

/-- Whether the first character of a list satisfies the predicate. -/
def headSat (q : Char → Bool) : List Char → Bool
  | [] => false
  | c :: _ => q c

/-! ### Strengths merge with resume facts (`mergeStrengthsWithResume`) -/

/-- JS `Array.prototype.join` with a separator. -/
def joinSep (sep : List Char) : List (List Char) → List Char
  | [] => []
  | [x] => x
  | x :: y :: xs => x ++ sep ++ joinSep sep (y :: xs)

/-- JS global `replace` of each whitespace run by a single space. -/
def collapseSpaces : List Char → List Char
  | [] => []
  | c :: cs =>
    if isJsSpace c then ' ' :: collapseSpaces (cs.dropWhile isJsSpace)
    else c :: collapseSpaces cs
termination_by l => l.length
decreasing_by
  · have := (List.dropWhile_sublist (l := cs) isJsSpace).length_le
    simp only [List.length_cons]
    omega
  · simp only [List.length_cons]
    omega

/-- The resume-skills bullet: first six skills joined with commas. -/
def skillsBullet (resumeSkills : List (List Char)) : ParsedBullet :=
  ⟨("Resume skills: ").data ++ (joinSep ((", ").data) (resumeSkills.take 6) ++ (".").data),
   some (("resume.skills").data)⟩

/-- The snippet shown for the resume experience: whitespace collapsed,
trimmed, and truncated at 140 characters with an ellipsis. -/
def experienceSnippet (resumeExperience : List Char) : List Char :=
  if 140 < (trimStr (collapseSpaces resumeExperience)).length then
    (trimStr (collapseSpaces resumeExperience)).take 140 ++ ("...").data
  else trimStr (collapseSpaces resumeExperience)

/-- The resume-experience bullet. -/
def experienceBullet (resumeExperience : List Char) : ParsedBullet :=
  ⟨("Experience highlight: ").data ++ experienceSnippet resumeExperience,
   some (("resume.experience").data)⟩

/-- The `add`/`normalized` deduplication of `mergeStrengthsWithResume`:
keep the first bullet for each lower-cased text. -/
def dedupByLowerText : List ParsedBullet → List (List Char) → List ParsedBullet
  | [], _ => []
  | b :: bs, seen =>
    if toLowerStr b.text ∈ seen then dedupByLowerText bs seen
    else b :: dedupByLowerText bs (toLowerStr b.text :: seen)

/-- Function `mergeStrengthsWithResume`: resume-skills bullet (when skills exist),
then the experience bullet (when the experience string is nonempty), then
the parsed AI strengths, deduplicated by lower-cased text and cut to three
entries. -/
def mergeStrengthsWithResume (strengths : List ParsedBullet)
    (resumeSkills : List (List Char)) (resumeExperience : List Char) :
    List ParsedBullet :=
  (dedupByLowerText
    ((if resumeSkills = [] then [] else [skillsBullet resumeSkills]) ++
      ((if resumeExperience = [] then [] else [experienceBullet resumeExperience]) ++
        strengths)) []).take 3

/-! ### Theorems -/

/-- C3 counterexample: at exactly 5 stated years (with a failing score and no
passed submissions) the code returns `MISMATCH`, while the claim, which
requires experience to strictly exceed the 5-year threshold, places this
input in the `ALIGNED` case. -/
theorem detectResumeConsistency_claim_false :
    detectResumeConsistency [] (some 5) 70 0 = ConsistencyFlag.MISMATCH ∧
    claimMismatchCondition [] (some 5) 70 0 = false := by
  decide

/-- C3 (amended): `detectResumeConsistency` returns `MISMATCH` exactly when
stated experience is at least 5 years while the technical score is below 60
or zero submissions passed, or when a resume skill is high-signal while the
technical score is below 50; in every other case it returns `ALIGNED`, and
the result never depends on the stored hiring recommendation. -/
theorem detectResumeConsistency_spec :
    (∀ (skills : List (List Char)) (years : Option ℚ) (tech : ℚ) (passed : Nat),
      (detectResumeConsistency skills years tech passed = ConsistencyFlag.MISMATCH ↔
        ((years.getD 0 ≥ 5 ∧ (tech < 60 ∨ passed = 0)) ∨
          (((skills.map toLowerStr).any fun s => highSignalSkills.contains s) = true
            ∧ tech < 50))) ∧
      (detectResumeConsistency skills years tech passed = ConsistencyFlag.ALIGNED ↔
        ¬ ((years.getD 0 ≥ 5 ∧ (tech < 60 ∨ passed = 0)) ∨
          (((skills.map toLowerStr).any fun s => highSignalSkills.contains s) = true
            ∧ tech < 50)))) ∧
    (∀ (c : CandidateFacts) (v : Option Verdict),
      resumeConsistencyOf { c with hiringRecommendation := v } = resumeConsistencyOf c) := by
  refine ⟨fun skills years tech passed => ?_, fun c v => rfl⟩
  unfold detectResumeConsistency
  by_cases h1 : (years.getD 0) ≥ 5 ∧ (tech < 60 ∨ passed = 0)
  · rw [if_pos h1]
    exact ⟨⟨fun _ => Or.inl h1, fun _ => rfl⟩,
      ⟨fun h => absurd h (by decide), fun h => absurd (Or.inl h1) h⟩⟩
  · by_cases h2 : ((skills.map toLowerStr).any fun s => highSignalSkills.contains s) = true
        ∧ tech < 50
    · rw [if_neg h1, if_pos h2]
      exact ⟨⟨fun _ => Or.inr h2, fun _ => rfl⟩,
        ⟨fun h => absurd h (by decide), fun h => absurd (Or.inr h2) h⟩⟩
    · rw [if_neg h1, if_neg h2]
      exact ⟨⟨fun h => absurd h (by decide), fun h => absurd h (not_or.mpr ⟨h1, h2⟩)⟩,
        ⟨fun _ => not_or.mpr ⟨h1, h2⟩, fun _ => rfl⟩⟩

/-- C1: every ExecutionReport produced by running a test suite satisfies
0 ≤ tests_passed ≤ tests_total, and is_passed holds exactly when
tests_passed = tests_total with tests_total positive. -/
theorem runTestSuiteReport_invariant (results : List TestStatus) (mock : Bool) (time : ℚ) :
    0 ≤ (runTestSuiteReport results mock time).tests_passed ∧
    (runTestSuiteReport results mock time).tests_passed ≤
      (runTestSuiteReport results mock time).tests_total ∧
    ((runTestSuiteReport results mock time).is_passed = true ↔
      ((runTestSuiteReport results mock time).tests_passed =
          (runTestSuiteReport results mock time).tests_total ∧
        0 < (runTestSuiteReport results mock time).tests_total)) := by
  refine ⟨Nat.zero_le _, List.countP_le_length _, ?_⟩
  show (decide (0 < results.length) && results.all fun r => r == TestStatus.passed) = true ↔
    ((results.countP fun r => r == TestStatus.passed) = results.length ∧ 0 < results.length)
  rw [Bool.and_eq_true, decide_eq_true_iff, List.all_eq_true, List.countP_eq_length]
  exact ⟨fun h => ⟨h.2, h.1⟩, fun h => ⟨h.2, h.1⟩⟩

theorem foldl_sub_weight (events : List IntegrityEvent) (init : Int) :
    events.foldl (fun acc e => acc - severityWeight e.severity) init =
      init - (events.map fun e => severityWeight e.severity).sum := by
  induction events generalizing init with
  | nil => simp
  | cons e rest ih =>
    rw [List.foldl_cons, ih, List.map_cons, List.sum_cons]
    omega

/-- C2: the computed IntegrityScore equals max(0, 100 minus the sum of the
per-event severity weights), and the event list [LOW, LOW, HIGH] scores 86. -/
theorem computeIntegrityScore_spec :
    (∀ events : List IntegrityEvent,
      computeIntegrityScore events =
        max 0 (100 - (events.map fun e => severityWeight e.severity).sum)) ∧
    computeIntegrityScore
      [⟨("TAB_SWITCH").data, Severity.LOW, 0⟩,
       ⟨("TAB_SWITCH").data, Severity.LOW, 10⟩,
       ⟨("COPY_PASTE_DETECTED").data, Severity.HIGH, 20⟩] = 86 := by
  constructor
  · intro events
    rw [computeIntegrityScore, foldl_sub_weight]
  · rfl

/-- C8: two calls of the per-event rationale with the same event type and the
same severity return equal strings (the result is a function of that pair
alone), and event types whose uppercased form is outside the rule table map
to the fixed default rationale. -/
theorem getIntegrityRationale_deterministic :
    (∀ (et₁ et₂ : List Char) (sev₁ sev₂ : ChartSeverity),
      et₁ = et₂ → sev₁ = sev₂ →
        getIntegrityRationale et₁ sev₁ = getIntegrityRationale et₂ sev₂) ∧
    (∀ (et : List Char) (sev : ChartSeverity),
      findRule INTEGRITY_RULES (toUpperStr et) = none →
        getIntegrityRationale et sev = defaultIntegrityRationale) := by
  constructor
  · intro et₁ et₂ sev₁ sev₂ he hs
    rw [he, hs]
  · intro et sev hnone
    have htab : toUpperStr et ≠ ("TAB_SWITCH").data := by
      intro h
      rw [h] at hnone
      exact absurd hnone (by decide)
    have hface : toUpperStr et ≠ ("FACE_NOT_DETECTED").data := by
      intro h
      rw [h] at hnone
      exact absurd hnone (by decide)
    unfold getIntegrityRationale
    rw [if_neg (fun h => htab h.1), if_neg (fun h => htab h.1),
      if_neg (fun h => hface h.1), integrityRationaleBase, hnone]
    rfl

/-- C8 witness: the theorem applied at a concrete unrecognized event type. -/
theorem getIntegrityRationale_deterministic_witness :
    getIntegrityRationale (("PHONE_DETECTED").data) ChartSeverity.HIGH =
        getIntegrityRationale (("PHONE_DETECTED").data) ChartSeverity.HIGH ∧
    getIntegrityRationale (("PHONE_DETECTED").data) ChartSeverity.HIGH =
        defaultIntegrityRationale :=
  ⟨getIntegrityRationale_deterministic.1 (("PHONE_DETECTED").data)
      (("PHONE_DETECTED").data) ChartSeverity.HIGH ChartSeverity.HIGH rfl rfl,
    getIntegrityRationale_deterministic.2 (("PHONE_DETECTED").data)
      ChartSeverity.HIGH (by decide)⟩

theorem originalityBreakdown_foldl (submissions : List CodeSubmission) (acc : CharBreakdown) :
    submissions.foldl
      (fun acc s =>
        let b := s.char_breakdown.getD ⟨0, 0⟩
        (⟨acc.typed + b.typed, acc.pasted + b.pasted⟩ : CharBreakdown))
      acc =
    ⟨acc.typed + (submissions.map fun s => (s.char_breakdown.getD ⟨0, 0⟩).typed).sum,
     acc.pasted + (submissions.map fun s => (s.char_breakdown.getD ⟨0, 0⟩).pasted).sum⟩ := by
  induction submissions generalizing acc with
  | nil => simp
  | cons s rest ih =>
    rw [List.foldl_cons, ih, List.map_cons, List.sum_cons, List.map_cons, List.sum_cons]
    simp only [CharBreakdown.mk.injEq]
    omega

theorem jsMathRound_eq_specRound (n d : Nat) (hd : 0 < d) :
    (jsMathRound (n, d) : ℤ) = specRound (fracVal (n, d)) := by
  show (((2 * n + d) / (2 * d) : ℕ) : ℤ) = ⌊(n : ℚ) / (d : ℚ) + 1 / 2⌋
  have hq : ((d : ℚ)) ≠ 0 := by
    exact_mod_cast Nat.pos_iff_ne_zero.mp hd
  have harith : (n : ℚ) / (d : ℚ) + 1 / 2 =
      ((2 * n + d : ℕ) : ℚ) / ((2 * d : ℕ) : ℚ) := by
    push_cast
    field_simp
    ring
  rw [harith]
  have hfloor := Rat.floor_intCast_div_natCast ((2 * n + d : ℕ) : ℤ) (2 * d)
  rw [show (((2 * n + d : ℕ) : ℤ) : ℚ) = ((2 * n + d : ℕ) : ℚ) by push_cast; ring] at hfloor
  rw [hfloor]
  push_cast [Int.ofNat_tdiv]
  rfl

theorem normalizeFrac_value (fuel : Nat) (n d : Nat) (e : ℤ) (hd : 0 < d) :
    0 < (normalizeFrac fuel n d e).2.1 ∧
    ((normalizeFrac fuel n d e).1 : ℚ) / ((normalizeFrac fuel n d e).2.1 : ℚ) *
        (2 : ℚ) ^ (normalizeFrac fuel n d e).2.2 =
      (n : ℚ) / (d : ℚ) * (2 : ℚ) ^ e := by
  induction fuel generalizing n d e with
  | zero => exact ⟨hd, rfl⟩
  | succ fuel ih =>
    rw [normalizeFrac]
    by_cases h1 : n < 2 ^ 52 * d
    · rw [if_pos h1]
      refine ⟨(ih (2 * n) d (e - 1) hd).1, ?_⟩
      rw [(ih (2 * n) d (e - 1) hd).2]
      have h2 : (2 : ℚ) ^ (e - 1) = (2 : ℚ) ^ e / 2 := by
        rw [zpow_sub₀ (two_ne_zero), zpow_one]
      push_cast
      rw [h2]
      ring
    · by_cases h2 : 2 ^ 53 * d ≤ n
      · rw [if_neg h1, if_pos h2]
        refine ⟨(ih n (2 * d) (e + 1) (by omega)).1, ?_⟩
        rw [(ih n (2 * d) (e + 1) (by omega)).2]
        have h3 : (2 : ℚ) ^ (e + 1) = (2 : ℚ) ^ e * 2 := by
          rw [zpow_add_one₀ (two_ne_zero)]
        have hdq : ((d : ℚ)) ≠ 0 := by
          exact_mod_cast Nat.pos_iff_ne_zero.mp hd
        push_cast
        rw [h3]
        field_simp
        ring
      · rw [if_neg h1, if_neg h2]
        exact ⟨hd, rfl⟩

theorem normalizeFrac_nat (fuel : Nat) (n : Nat) (e : ℤ)
    (h0 : 0 < n) (h53 : n < 2 ^ 53) (hfuel : 2 ^ 52 ≤ n * 2 ^ fuel) :
    ∃ k : Nat, normalizeFrac fuel n 1 e = (n * 2 ^ k, 1, e - k) ∧
      2 ^ 52 ≤ n * 2 ^ k ∧ n * 2 ^ k < 2 ^ 53 := by
  induction fuel generalizing n e with
  | zero =>
    refine ⟨0, by simp [normalizeFrac], by simpa using hfuel, by simpa using h53⟩
  | succ fuel ih =>
    have hpow : (2 : ℕ) ^ 53 = 2 * 2 ^ 52 := by norm_num
    rw [normalizeFrac]
    by_cases h1 : n < 2 ^ 52 * 1
    · rw [if_pos h1]
      have hmul : n * 2 ^ (fuel + 1) = 2 * n * 2 ^ fuel := by ring
      obtain ⟨k, heq, hk1, hk2⟩ := ih (2 * n) (e - 1) (by omega) (by omega) (by omega)
      refine ⟨k + 1, ?_, ?_, ?_⟩
      · rw [heq, show 2 * n * 2 ^ k = n * 2 ^ (k + 1) by ring,
          show (e - 1) - (k : ℤ) = e - (((k + 1) : ℕ) : ℤ) by push_cast; ring]
      · calc (2 : ℕ) ^ 52 ≤ 2 * n * 2 ^ k := hk1
          _ = n * 2 ^ (k + 1) := by ring
      · calc n * 2 ^ (k + 1) = 2 * n * 2 ^ k := by ring
          _ < 2 ^ 53 := hk2
    · by_cases h2 : 2 ^ 53 * 1 ≤ n
      · exact absurd h2 (by omega)
      · rw [if_neg h1, if_neg h2]
        refine ⟨0, by simp, ?_, by simpa using h53⟩
        simp only [pow_zero, Nat.mul_one]
        omega

theorem roundTiesEvenFrac_one (m : Nat) : roundTiesEvenFrac m 1 = m := by
  rw [roundTiesEvenFrac, Nat.mod_one]
  rw [if_pos (by norm_num : 2 * 0 < 1), Nat.div_one]

theorem roundToDoubleFrac_den_pos (n d : Nat) : 0 < (roundToDoubleFrac n d).2 := by
  rw [roundToDoubleFrac]
  by_cases h0 : n = 0
  · rw [if_pos h0]
    norm_num
  · rw [if_neg h0]
    by_cases he : 0 ≤ (normalizeFrac 2200 n d 0).2.2
    · rw [if_pos he]
      norm_num
    · rw [if_neg he]
      exact Nat.pos_pow_of_pos _ (by norm_num)

theorem pow52_le_mul_pow (n f : Nat) (h1 : 0 < n) (hf : 52 ≤ f) :
    2 ^ 52 ≤ n * 2 ^ f := by
  calc (2 : ℕ) ^ 52 ≤ 2 ^ f := Nat.pow_le_pow_right (by omega) hf
    _ = 1 * 2 ^ f := (Nat.one_mul _).symm
    _ ≤ n * 2 ^ f := Nat.mul_le_mul_right _ h1

theorem roundToDoubleFrac_nat (n : Nat) (h53 : n < 2 ^ 53) :
    fracVal (roundToDoubleFrac n 1) = (n : ℚ) := by
  by_cases h0 : n = 0
  · subst h0
    rw [roundToDoubleFrac, if_pos rfl]
    simp [fracVal]
  · have h1 : 0 < n := Nat.pos_of_ne_zero h0
    obtain ⟨k, heq, hk1, hk2⟩ := normalizeFrac_nat 2200 n (0 : ℤ) h1 h53
      (pow52_le_mul_pow n 2200 h1 (by omega))
    rw [roundToDoubleFrac, if_neg h0]
    simp only [heq]
    rw [roundTiesEvenFrac_one]
    by_cases hk : k = 0
    · subst hk
      rw [if_pos (by norm_num)]
      simp [fracVal]
    · rw [if_neg (by omega)]
      have htn : (-((0 : ℤ) - (k : ℕ))).toNat = k := by omega
      rw [htn, fracVal]
      have h2k : ((2 : ℚ) ^ k) ≠ 0 := pow_ne_zero _ two_ne_zero
      push_cast
      field_simp

/-- C7 counterexample: with 23 typed and 17 pasted characters the binary64
evaluation of (typed/total)*100 falls just below 57.5, so the chart rounds
to 57, while the claimed exact rounding of 100*23/(23+17) = 57.5 is 58. -/
theorem originalityPercent_claim_false :
    typedPercent ⟨23, 17⟩ = 57 ∧ pastedPercent ⟨23, 17⟩ = 43 ∧
    specRound (((100 : ℚ) * 23) / (((23 : ℕ) : ℚ) + ((17 : ℕ) : ℚ))) = 58 := by
  refine ⟨by decide, by decide, ?_⟩
  have harith : ((100 : ℚ) * 23) / (((23 : ℕ) : ℚ) + ((17 : ℕ) : ℚ)) + 1 / 2 = 58 := by
    norm_num
  rw [specRound, harith]
  exact_mod_cast Int.floor_intCast (α := ℚ) 58

/-- C7 (amended): the originality breakdown equals the field-wise sums of
the per-submission typed and pasted counts (a missing breakdown contributing
zero); the total the chart divides by is the exact integer sum for all
counts below 2^53; and when the total is positive the displayed typed
percentage is the half-up rounding of the binary64 evaluation of
(typed/total)*100 (not of its exact rational value), with the pasted
percentage equal to 100 minus the typed percentage. -/
theorem originalityBreakdown_spec :
    (∀ submissions : List CodeSubmission,
      (originalityBreakdown submissions).typed =
          (submissions.map fun s => (s.char_breakdown.getD ⟨0, 0⟩).typed).sum ∧
      (originalityBreakdown submissions).pasted =
          (submissions.map fun s => (s.char_breakdown.getD ⟨0, 0⟩).pasted).sum) ∧
    (∀ t p : Nat, t + p < 2 ^ 53 →
      fracVal (jsAddF (t, 1) (p, 1)) = (t : ℚ) + (p : ℚ)) ∧
    (∀ b : CharBreakdown,
      0 < (jsAddF (b.typed, 1) (b.pasted, 1)).1 →
      (typedPercent b = specRound (fracVal
          (jsMulF (jsDivF (b.typed, 1) (jsAddF (b.typed, 1) (b.pasted, 1))) (100, 1))) ∧
        pastedPercent b = 100 - typedPercent b)) := by
  refine ⟨fun submissions => ⟨?_, ?_⟩, fun t p h => ?_, fun b hb => ⟨?_, ?_⟩⟩
  · rw [originalityBreakdown, originalityBreakdown_foldl]
    simp
  · rw [originalityBreakdown, originalityBreakdown_foldl]
    simp
  · have hadd : jsAddF (t, 1) (p, 1) = roundToDoubleFrac (t + p) 1 := by
      simp [jsAddF]
    rw [hadd, roundToDoubleFrac_nat (t + p) h]
    push_cast
    ring
  · rw [typedPercent, if_pos hb]
    rcases hP : jsMulF (jsDivF (b.typed, 1) (jsAddF (b.typed, 1) (b.pasted, 1))) (100, 1)
      with ⟨pn, pd⟩
    have hpd : 0 < pd := by
      have := roundToDoubleFrac_den_pos
        ((jsDivF (b.typed, 1) (jsAddF (b.typed, 1) (b.pasted, 1))).1 * 100)
        ((jsDivF (b.typed, 1) (jsAddF (b.typed, 1) (b.pasted, 1))).2 * 1)
      rw [show roundToDoubleFrac
          ((jsDivF (b.typed, 1) (jsAddF (b.typed, 1) (b.pasted, 1))).1 * 100)
          ((jsDivF (b.typed, 1) (jsAddF (b.typed, 1) (b.pasted, 1))).2 * 1) =
        jsMulF (jsDivF (b.typed, 1) (jsAddF (b.typed, 1) (b.pasted, 1))) (100, 1)
        from rfl, hP] at this
      exact this
    exact jsMathRound_eq_specRound pn pd hpd
  · rw [pastedPercent, if_pos hb]

/-- C7 witness: the theorem applied to a concrete submission list and to the
7-typed / 3-pasted breakdown, where the double chain does round to 70. -/
theorem originalityBreakdown_spec_witness :
    (originalityBreakdown
        ([⟨1, true, 5, 5, some ⟨4, 3⟩⟩, ⟨2, false, 0, 6, none⟩,
          ⟨3, true, 2, 2, some ⟨3, 0⟩⟩] : List CodeSubmission)).typed =
      (([⟨1, true, 5, 5, some ⟨4, 3⟩⟩, ⟨2, false, 0, 6, none⟩,
         ⟨3, true, 2, 2, some ⟨3, 0⟩⟩] : List CodeSubmission).map
          (fun s => (s.char_breakdown.getD ⟨0, 0⟩).typed)).sum ∧
    fracVal (jsAddF (7, 1) (3, 1)) = ((7 : ℕ) : ℚ) + ((3 : ℕ) : ℚ) ∧
    typedPercent ⟨7, 3⟩ = specRound (fracVal
      (jsMulF (jsDivF (7, 1) (jsAddF (7, 1) (3, 1))) (100, 1))) ∧
    pastedPercent ⟨7, 3⟩ = 100 - typedPercent ⟨7, 3⟩ ∧
    typedPercent ⟨7, 3⟩ = 70 :=
  ⟨(originalityBreakdown_spec.1 _).1,
    originalityBreakdown_spec.2.1 7 3 (by norm_num),
    (originalityBreakdown_spec.2.2 ⟨7, 3⟩ (by decide)).1,
    (originalityBreakdown_spec.2.2 ⟨7, 3⟩ (by decide)).2,
    by decide⟩

/-- C5 counterexample: two tab switches one second apart each append a
TAB_SWITCH event, so the producer logs two events of the same type less
than 15 seconds apart. -/
theorem tabSwitch_debounce_counterexample :
    tabSwitchRun [] [0, 1000] = [(0, Severity.MEDIUM), (1000, Severity.MEDIUM)] ∧
    (1000 : Int) - 0 < 15000 := by
  decide

theorem cooldownRun_lower_bound (ts : List Int) (last : Int) :
    ∀ x ∈ cooldownRun last ts, last + 15000 < x := by
  induction ts generalizing last with
  | nil => intro x hx; simp [cooldownRun] at hx
  | cons t rest ih =>
    intro x hx
    rw [cooldownRun] at hx
    by_cases h : t - last > 15000
    · rw [if_pos h] at hx
      rcases List.mem_cons.mp hx with h1 | h2
      · omega
      · have := ih t x h2
        omega
    · rw [if_neg h] at hx
      exact ih last x hx

/-- C5 (amended): every producer routed through the `lastTelemetryRef`
15-second cooldown (paste and camera events) never appends two events of its
type within 15 seconds of each other, but the tab-switch producer appends a
TAB_SWITCH event for every tab switch, with no debounce at all. -/
theorem telemetryDebounce_spec :
    (∀ (last : Int) (ts : List Int),
      List.Pairwise (fun a b => a + 15000 < b) (cooldownRun last ts)) ∧
    (∀ (state : List Int) (ts : List Int),
      (tabSwitchRun state ts).map Prod.fst = ts) := by
  constructor
  · intro last ts
    induction ts generalizing last with
    | nil => exact List.Pairwise.nil
    | cons t rest ih =>
      rw [cooldownRun]
      by_cases h : t - last > 15000
      · rw [if_pos h]
        exact List.Pairwise.cons (cooldownRun_lower_bound rest t) (ih t)
      · rw [if_neg h]
        exact ih last
  · intro state ts
    induction ts generalizing state with
    | nil => rfl
    | cons t rest ih =>
      rw [tabSwitchRun, List.map_cons, ih]

theorem tabSwitchRunState_append (s : List Int) (l1 l2 : List Int) :
    tabSwitchRunState s (l1 ++ l2) = tabSwitchRunState (tabSwitchRunState s l1) l2 := by
  induction l1 generalizing s with
  | nil => rfl
  | cons t rest ih => rw [List.cons_append, tabSwitchRunState, tabSwitchRunState, ih]

theorem tabSwitchRunState_mem (past : List Int) (s : List Int) :
    ∀ x ∈ tabSwitchRunState s past, x ∈ s ∨ x ∈ past := by
  induction past generalizing s with
  | nil => intro x hx; exact Or.inl hx
  | cons t rest ih =>
    intro x hx
    rcases ih (tabSwitchStep s t).1 x hx with h1 | h2
    · rw [tabSwitchStep] at h1
      rcases List.mem_append.mp h1 with ha | hb
      · exact Or.inl (List.mem_of_mem_filter ha)
      · exact Or.inr (List.mem_cons.mpr (Or.inl (List.mem_singleton.mp hb)))
    · exact Or.inr (List.mem_cons.mpr (Or.inr h2))

theorem tabSwitchRunState_filter (past : List Int) (now : Int) :
    List.Pairwise (· ≤ ·) past → (∀ x ∈ past, x ≤ now) →
    (tabSwitchRunState [] past).filter (fun x => now - x < 60000) =
      past.filter (fun x => now - x < 60000) := by
  induction past using List.reverseRecOn with
  | nil => intro _ _; rfl
  | append_singleton past t ih =>
    intro hsorted hle
    have hpair := (List.pairwise_append.mp hsorted)
    have hsorted' : List.Pairwise (· ≤ ·) past := hpair.1
    have hlet : ∀ x ∈ past, x ≤ t := fun x hx =>
      hpair.2.2 x hx t (List.mem_singleton_self t)
    have hle' : ∀ x ∈ past, x ≤ now := fun x hx =>
      hle x (List.mem_append.mpr (Or.inl hx))
    have htnow : t ≤ now := hle t (List.mem_append.mpr (Or.inr (List.mem_singleton_self t)))
    rw [tabSwitchRunState_append, tabSwitchRunState, tabSwitchRunState, tabSwitchStep]
    simp only [List.filter_append, List.filter_filter]
    have hcong : (tabSwitchRunState [] past).filter
        (fun a => decide (now - a < 60000) && decide (t - a < 60000)) =
        (tabSwitchRunState [] past).filter (fun a => now - a < 60000) := by
      apply List.filter_congr
      intro a ha
      rcases tabSwitchRunState_mem past [] a ha with h0 | hmem
      · exact absurd h0 (List.not_mem_nil a)
      · have hat : a ≤ t := hlet a hmem
        by_cases hp : now - a < 60000
        · have hq : t - a < 60000 := by omega
          simp [hp, hq]
        · simp [hp]
    rw [hcong, ih hsorted' hle']

/-- C9: a TAB_SWITCH event is assigned severity HIGH exactly when it is at
least the third switch within the trailing 60-second window (counting
itself) and MEDIUM otherwise, with switches 60 seconds old or older
discarded from the window before counting. -/
theorem tabSwitch_severity_spec (past : List Int) (now : Int)
    (hsorted : List.Pairwise (· ≤ ·) past) (hle : ∀ x ∈ past, x ≤ now) :
    (tabSwitchStep (tabSwitchRunState [] past) now).1 =
      ((past ++ [now]).filter fun x => now - x < 60000) ∧
    ((tabSwitchStep (tabSwitchRunState [] past) now).2 = Severity.HIGH ↔
      3 ≤ ((past ++ [now]).filter fun x => now - x < 60000).length) ∧
    ((tabSwitchStep (tabSwitchRunState [] past) now).2 = Severity.MEDIUM ↔
      ((past ++ [now]).filter fun x => now - x < 60000).length < 3) := by
  have hstate := tabSwitchRunState_filter past now hsorted hle
  have hnow : ((List.filter (fun x => decide (now - x < 60000)) [now]) = [now]) := by
    simp
  have hfilter : ((past ++ [now]).filter fun x => now - x < 60000) =
      (past.filter fun x => now - x < 60000) ++ [now] := by
    rw [List.filter_append, hnow]
  have hfst : (tabSwitchStep (tabSwitchRunState [] past) now).1 =
      (past.filter fun x => now - x < 60000) ++ [now] := by
    rw [tabSwitchStep, hstate]
  refine ⟨by rw [hfst, hfilter], ?_, ?_⟩
  · rw [tabSwitchStep, hstate, hfilter]
    by_cases h : 3 ≤ ((past.filter fun x => now - x < 60000) ++ [now]).length
    · rw [if_pos h]
      exact ⟨fun _ => h, fun _ => rfl⟩
    · rw [if_neg h]
      exact ⟨fun hc => Severity.noConfusion hc, fun hc => absurd hc h⟩
  · rw [tabSwitchStep, hstate, hfilter]
    by_cases h : 3 ≤ ((past.filter fun x => now - x < 60000) ++ [now]).length
    · rw [if_pos h]
      exact ⟨fun hc => Severity.noConfusion hc, fun hc => by omega⟩
    · rw [if_neg h]
      exact ⟨fun _ => by omega, fun _ => rfl⟩

/-- C9 witness: three switches inside one minute make the third HIGH. -/
theorem tabSwitch_severity_spec_witness :
    (tabSwitchStep (tabSwitchRunState [] [0, 30000]) 59000).2 = Severity.HIGH :=
  (tabSwitch_severity_spec [0, 30000] 59000 (by decide)
      (by intro x hx; fin_cases hx <;> decide)).2.1.mpr (by decide)

theorem findSection_some_contains (label : List Char) (text : List Char)
    (c : List Char) (h : findSection label text = some c) :
    containsCI (sectionHeader label) text = true := by
  induction text with
  | nil => exact absurd h (by rw [findSection]; exact Option.noConfusion)
  | cons x xs ih =>
    rw [findSection] at h
    rw [containsCI, Bool.or_eq_true]
    by_cases hm : startsWithCI (sectionHeader label) (x :: xs) = true
    · exact Or.inl hm
    · refine Or.inr (ih ?_)
      rw [matchSectionAt, if_neg fun hc => hm hc] at h
      exact h

theorem findVerdict_some_contains (text : List Char) (v : Verdict)
    (h : findVerdict text = some v) :
    containsCI (sectionHeader (("VERDICT").data)) text = true := by
  induction text with
  | nil => exact absurd h (by rw [findVerdict]; exact Option.noConfusion)
  | cons x xs ih =>
    rw [findVerdict] at h
    rw [containsCI, Bool.or_eq_true]
    by_cases hm : startsWithCI (sectionHeader (("VERDICT").data)) (x :: xs) = true
    · exact Or.inl hm
    · refine Or.inr (ih ?_)
      rw [matchVerdictAt, if_neg fun hc => hm hc] at h
      exact h

theorem findVerdict_none_of_no_match (text : List Char)
    (h : ((suffixes text).all fun s => (matchVerdictAt s).isNone) = true) :
    findVerdict text = none := by
  induction text with
  | nil => rfl
  | cons x xs ih =>
    rw [suffixes, List.all_cons, Bool.and_eq_true] at h
    rw [findVerdict]
    rcases hm : matchVerdictAt (x :: xs) with _ | v
    · exact ih h.2
    · rw [hm] at h
      exact absurd h.1 (by rw [Option.isNone]; exact Bool.noConfusion)

/-- C4: parsing the rationale never fails: a null (or empty) report maps to
the fixed pending rationale; a text with no case-insensitive occurrence of
the summary header gets the fixed placeholder summary; empty strengths or
risks bullet lists are replaced by the fixed placeholder bullets; and a text
in which the verdict header never occurs, or in which no position matches
the verdict regex, parses to a null verdict. -/
theorem parseAIReport_robust :
    (parseAIReport none = pendingRationale ∧
      parseAIReport (some []) = pendingRationale) ∧
    (∀ text : List Char,
      containsCI (sectionHeader (("SUMMARY").data)) text = false →
        (parseAIReportText text).summary =
          ("Awaiting assessment completion for AI analysis.").data) ∧
    (∀ text : List Char,
      parseBullets (getSection (("STRENGTHS").data) text) = [] →
        (parseAIReportText text).strengths =
          [⟨("Technical assessment completed").data, none⟩]) ∧
    (∀ text : List Char,
      parseBullets (getSection (("RISKS").data) text) = [] →
        (parseAIReportText text).risks =
          [⟨("No major risks highlighted").data, none⟩]) ∧
    (∀ text : List Char,
      (containsCI (sectionHeader (("VERDICT").data)) text = false ∨
        ((suffixes text).all fun s => (matchVerdictAt s).isNone) = true) →
        (parseAIReportText text).verdict = none) := by
  refine ⟨⟨rfl, rfl⟩, ?_, ?_, ?_, ?_⟩
  · intro text hno
    have hfind : findSection (("SUMMARY").data) text = none := by
      rcases hf : findSection (("SUMMARY").data) text with _ | c
      · rfl
      · rw [findSection_some_contains _ _ _ hf] at hno
        exact absurd hno (by exact Bool.noConfusion)
    have hget : getSection (("SUMMARY").data) text = [] := by
      rw [getSection, hfind]
    show (if getSection (("SUMMARY").data) text = [] then _ else _) = _
    rw [if_pos hget]
  · intro text hempty
    show (if parseBullets (getSection (("STRENGTHS").data) text) = [] then _ else _) = _
    rw [if_pos hempty]
  · intro text hempty
    show (if parseBullets (getSection (("RISKS").data) text) = [] then _ else _) = _
    rw [if_pos hempty]
  · intro text hno
    show findVerdict text = none
    rcases hno with hno | hno
    · rcases hf : findVerdict text with _ | v
      · rfl
      · rw [findVerdict_some_contains _ _ hf] at hno
        exact absurd hno (by exact Bool.noConfusion)
    · exact findVerdict_none_of_no_match text hno

/-- C4 witness: the theorem applied to a headerless concrete text. -/
theorem parseAIReport_robust_witness :
    parseAIReport none = pendingRationale ∧
    (parseAIReportText (("hello world").data)).summary =
      ("Awaiting assessment completion for AI analysis.").data ∧
    (parseAIReportText (("hello world").data)).strengths =
      [⟨("Technical assessment completed").data, none⟩] ∧
    (parseAIReportText (("hello world").data)).risks =
      [⟨("No major risks highlighted").data, none⟩] ∧
    (parseAIReportText (("hello world").data)).verdict = none :=
  ⟨parseAIReport_robust.1.1,
    parseAIReport_robust.2.1 (("hello world").data) (by decide),
    parseAIReport_robust.2.2.1 (("hello world").data) (by decide),
    parseAIReport_robust.2.2.2.1 (("hello world").data) (by decide),
    parseAIReport_robust.2.2.2.2 (("hello world").data) (Or.inl (by decide))⟩

/-- C6 counterexample: a bullet line with the same citation twice keeps the
second occurrence in its parsed text: only the first match is deleted, so
the text field still contains the citation with its tag. -/
theorem parseBullets_citation_claim_false :
    parseBullets (("x EVIDENCE: a EVIDENCE: a").data) =
      [⟨("x  EVIDENCE: a").data, some (("a").data)⟩] ∧
    containsCI (("EVIDENCE: a").data) (("x  EVIDENCE: a").data) = true := by
  decide

theorem charCI_refl (c : Char) : charCI c c = true := by
  simp [charCI]

theorem startsWithCI_refl_append (p r : List Char) :
    startsWithCI p (p ++ r) = true := by
  induction p with
  | nil => rfl
  | cons c cs ih =>
    rw [List.cons_append, startsWithCI, charCI_refl, ih]
    rfl

theorem startsWithCI_append_right (p s b : List Char)
    (h : startsWithCI p s = true) : startsWithCI p (s ++ b) = true := by
  induction p generalizing s with
  | nil => rfl
  | cons c cs ih =>
    cases s with
    | nil => exact absurd h (by rw [startsWithCI]; exact Bool.noConfusion)
    | cons x xs =>
      rw [startsWithCI, Bool.and_eq_true] at h
      rw [List.cons_append, startsWithCI, h.1, ih xs h.2]
      rfl

theorem containsCI_nil_pat (s : List Char) : containsCI [] s = true := by
  cases s with
  | nil => rfl
  | cons c cs => rw [containsCI, startsWithCI]; rfl

theorem containsCI_append_left (p a x : List Char)
    (h : containsCI p x = true) : containsCI p (a ++ x) = true := by
  induction a with
  | nil => exact h
  | cons c cs ih =>
    rw [List.cons_append, containsCI, Bool.or_eq_true]
    exact Or.inr ih

theorem containsCI_append_right_ext (p x b : List Char)
    (h : containsCI p x = true) : containsCI p (x ++ b) = true := by
  induction x with
  | nil =>
    cases p with
    | nil => exact containsCI_nil_pat b
    | cons q qs =>
      rw [containsCI, startsWithCI] at h
      exact absurd h Bool.noConfusion
  | cons c cs ih =>
    rw [containsCI, Bool.or_eq_true] at h
    rw [List.cons_append, containsCI, Bool.or_eq_true]
    rcases h with h | h
    · exact Or.inl (startsWithCI_append_right p (c :: cs) b h)
    · exact Or.inr (ih h)

theorem containsCI_infix (p a x b : List Char)
    (h : containsCI p x = true) : containsCI p (a ++ (x ++ b)) = true :=
  containsCI_append_left p a (x ++ b) (containsCI_append_right_ext p x b h)

theorem dropWhile_decomp (q : Char → Bool) (l : List Char) :
    ∃ a, l = a ++ l.dropWhile q := by
  induction l with
  | nil => exact ⟨[], rfl⟩
  | cons c cs ih =>
    by_cases hq : q c = true
    · rcases ih with ⟨a, ha⟩
      refine ⟨c :: a, ?_⟩
      rw [List.dropWhile_cons, if_pos hq, List.cons_append, ← ha]
    · refine ⟨[], ?_⟩
      rw [List.dropWhile_cons, if_neg hq]
      rfl

theorem rstrip_decomp (l : List Char) : ∃ b, l = rstripStr l ++ b := by
  rcases dropWhile_decomp isJsSpace l.reverse with ⟨a, ha⟩
  refine ⟨a.reverse, ?_⟩
  rw [rstripStr]
  calc l = l.reverse.reverse := (List.reverse_reverse l).symm
    _ = (a ++ l.reverse.dropWhile isJsSpace).reverse := by rw [← ha]
    _ = (l.reverse.dropWhile isJsSpace).reverse ++ a.reverse := by
        rw [List.reverse_append]

theorem ltrim_rstrip_decomp (t : List Char) :
    ∃ a b, t = a ++ (rstripStr (t.dropWhile isJsSpace) ++ b) := by
  rcases dropWhile_decomp isJsSpace t with ⟨a, ha⟩
  rcases rstrip_decomp (t.dropWhile isJsSpace) with ⟨b, hb⟩
  exact ⟨a, b, by rw [← hb, ← ha]⟩

theorem trim_rstrip_decomp (s : List Char) :
    ∃ a b, s = a ++ (trimStr (rstripStr s) ++ b) := by
  rcases ltrim_rstrip_decomp (rstripStr s) with ⟨a, b2, h⟩
  rcases rstrip_decomp s with ⟨b1, hb1⟩
  refine ⟨a, b2 ++ b1, ?_⟩
  have htrim : trimStr (rstripStr s) =
      rstripStr ((rstripStr s).dropWhile isJsSpace) := rfl
  rw [htrim]
  calc s = rstripStr s ++ b1 := hb1
    _ = (a ++ (rstripStr ((rstripStr s).dropWhile isJsSpace) ++ b2)) ++ b1 := by
        conv_lhs => rw [h]
    _ = a ++ (rstripStr ((rstripStr s).dropWhile isJsSpace) ++ (b2 ++ b1)) := by
        simp [List.append_assoc]

theorem contains_trim_rstrip (p s : List Char)
    (h : containsCI p (trimStr (rstripStr s)) = true) :
    containsCI p s = true := by
  rcases trim_rstrip_decomp s with ⟨a, b, hab⟩
  rw [hab]
  exact containsCI_infix p a _ b h

theorem isTagChar_not_space (c : Char) (h : isTagChar c = true) :
    isJsSpace c = false := by
  rw [isTagChar] at h
  rw [isJsSpace]
  simp only [Bool.or_eq_true, Bool.and_eq_true, decide_eq_true_iff] at h
  simp only [Bool.or_eq_false_iff, decide_eq_false_iff_not]
  omega

theorem takeWhile_append_all (q : Char → Bool) (ws rest : List Char)
    (hall : ws.all q = true) (hrest : headSat q rest = false) :
    (ws ++ rest).takeWhile q = ws := by
  induction ws with
  | nil =>
    cases rest with
    | nil => rfl
    | cons c cs =>
      rw [headSat] at hrest
      rw [List.nil_append, List.takeWhile_cons, if_neg (by rw [hrest]; exact Bool.noConfusion)]
  | cons w ws' ih =>
    rw [List.all_cons, Bool.and_eq_true] at hall
    rw [List.cons_append, List.takeWhile_cons, if_pos hall.1, ih hall.2]

theorem dropWhile_append_all (q : Char → Bool) (ws rest : List Char)
    (hall : ws.all q = true) (hrest : headSat q rest = false) :
    (ws ++ rest).dropWhile q = rest := by
  induction ws with
  | nil =>
    cases rest with
    | nil => rfl
    | cons c cs =>
      rw [headSat] at hrest
      rw [List.nil_append, List.dropWhile_cons, if_neg (by rw [hrest]; exact Bool.noConfusion)]
  | cons w ws' ih =>
    rw [List.all_cons, Bool.and_eq_true] at hall
    rw [List.cons_append, List.dropWhile_cons, if_pos hall.1, ih hall.2]

theorem matchCiteAt_decomp (ws tag post : List Char)
    (hws : ws.all isJsSpace = true) (htag : tag ≠ [])
    (htagc : tag.all isTagChar = true) (hpost : headSat isTagChar post = false) :
    matchCiteAt ((("EVIDENCE:").data) ++ (ws ++ (tag ++ post))) = some (tag, post) := by
  have hsw := startsWithCI_refl_append (("EVIDENCE:").data) (ws ++ (tag ++ post))
  have hdrop : (((("EVIDENCE:").data) ++ (ws ++ (tag ++ post))).drop 9) =
      ws ++ (tag ++ post) := by
    have h9 : (9 : Nat) = (("EVIDENCE:").data).length := rfl
    rw [h9, List.drop_left]
  have hheadtag : headSat isJsSpace (tag ++ post) = false := by
    cases tag with
    | nil => exact absurd rfl htag
    | cons t ts =>
      rw [List.all_cons, Bool.and_eq_true] at htagc
      rw [List.cons_append, headSat]
      exact isTagChar_not_space t htagc.1
  have hne : tag.isEmpty = false := by
    cases tag with
    | nil => exact absurd rfl htag
    | cons t ts => rfl
  rw [matchCiteAt, if_pos hsw]
  simp only [hdrop, dropWhile_append_all isJsSpace ws (tag ++ post) hws hheadtag,
    takeWhile_append_all isTagChar tag post htagc hpost, hne,
    Bool.false_eq_true, if_false, List.drop_left]

theorem findCite_decomp (pre rest tag post : List Char)
    (hmatch : matchCiteAt rest = some (tag, post))
    (hpre : ∀ s ∈ suffixes pre, s ≠ [] → matchCiteAt (s ++ rest) = none) :
    findCite (pre ++ rest) = some (pre, tag, post) := by
  induction pre with
  | nil =>
    cases rest with
    | nil =>
      have h0 : matchCiteAt ([] : List Char) = none := by decide
      rw [h0] at hmatch
      exact absurd hmatch Option.noConfusion
    | cons c cs =>
      rw [List.nil_append, findCite, hmatch]
  | cons c pre' ih =>
    have hcur : matchCiteAt ((c :: pre') ++ rest) = none :=
      hpre (c :: pre') (by rw [suffixes]; exact List.mem_cons_self _ _)
        (fun h => List.noConfusion h)
    have hpre' : ∀ s ∈ suffixes pre', s ≠ [] → matchCiteAt (s ++ rest) = none := by
      intro s hs hne
      exact hpre s (by rw [suffixes]; exact List.mem_cons_of_mem _ hs) hne
    rw [List.cons_append] at hcur
    rw [List.cons_append, findCite, hcur, ih hpre']

theorem findCite_some_contains (line : List Char)
    (x : List Char × List Char × List Char) (h : findCite line = some x) :
    containsCI (("EVIDENCE:").data) line = true := by
  induction line generalizing x with
  | nil =>
    rw [findCite] at h
    exact absurd h Option.noConfusion
  | cons c cs ih =>
    rw [findCite] at h
    rw [containsCI, Bool.or_eq_true]
    rcases hm : matchCiteAt (c :: cs) with _ | pr
    · rw [hm] at h
      rcases hf : findCite cs with _ | y
      · rw [hf] at h
        simp at h
      · exact Or.inr (ih y hf)
    · by_cases hsw : startsWithCI (("EVIDENCE:").data) (c :: cs) = true
      · exact Or.inl hsw
      · rw [matchCiteAt, if_neg hsw] at hm
        exact absurd hm Option.noConfusion

/-- C6 (amended): for a bullet line decomposing as pre ++ EVIDENCE: ++
whitespace ++ tag ++ post, where no earlier position matches the citation
regex and the tag run is maximal, the parsed bullet carries exactly that tag
and exactly the first citation match is deleted from the text, so when the
rest of the line is citation-free the parsed text no longer contains any
citation; a line without a citation is parsed with no evidence tag and
untouched (trimmed) text. -/
theorem parseBulletLine_citation_spec :
    (∀ pre ws tag post : List Char,
      (∀ s ∈ suffixes pre, s ≠ [] →
        matchCiteAt (s ++ ((("EVIDENCE:").data) ++ (ws ++ (tag ++ post)))) = none) →
      ws.all isJsSpace = true → tag ≠ [] → tag.all isTagChar = true →
      headSat isTagChar post = false →
      (parseBulletLine (pre ++ ((("EVIDENCE:").data) ++ (ws ++ (tag ++ post)))) =
          ⟨trimStr (rstripStr (pre ++ post)), some tag⟩ ∧
        (containsCI (("EVIDENCE:").data) (pre ++ post) = false →
          containsCI (("EVIDENCE:").data)
            (parseBulletLine
              (pre ++ ((("EVIDENCE:").data) ++ (ws ++ (tag ++ post))))).text = false))) ∧
    (∀ line : List Char, containsCI (("EVIDENCE:").data) line = false →
      parseBulletLine line = ⟨trimStr (rstripStr line), none⟩) := by
  constructor
  · intro pre ws tag post hpre hws htag htagc hpost
    have hm := matchCiteAt_decomp ws tag post hws htag htagc hpost
    have hf := findCite_decomp pre ((("EVIDENCE:").data) ++ (ws ++ (tag ++ post)))
      tag post hm hpre
    have heq : parseBulletLine (pre ++ ((("EVIDENCE:").data) ++ (ws ++ (tag ++ post)))) =
        ⟨trimStr (rstripStr (pre ++ post)), some tag⟩ := by
      rw [parseBulletLine, hf]
    refine ⟨heq, fun hfree => ?_⟩
    rw [heq]
    show containsCI (("EVIDENCE:").data) (trimStr (rstripStr (pre ++ post))) = false
    by_cases hc : containsCI (("EVIDENCE:").data) (trimStr (rstripStr (pre ++ post))) = true
    · rw [contains_trim_rstrip _ _ hc] at hfree
      exact absurd hfree Bool.noConfusion
    · exact Bool.eq_false_iff.mpr hc
  · intro line hfree
    rcases hf : findCite line with _ | x
    · rw [parseBulletLine, hf]
    · rw [findCite_some_contains line x hf] at hfree
      exact absurd hfree Bool.noConfusion

/-- C6 witness: the theorem applied to one line with a single citation and
one line with none. -/
theorem parseBulletLine_citation_spec_witness :
    parseBulletLine (("ok EVIDENCE: t1").data) = ⟨("ok").data, some (("t1").data)⟩ ∧
    containsCI (("EVIDENCE:").data)
      (parseBulletLine (("ok EVIDENCE: t1").data)).text = false ∧
    parseBulletLine (("just text").data) =
      ⟨trimStr (rstripStr (("just text").data)), none⟩ := by
  have h1 := parseBulletLine_citation_spec.1 (("ok ").data) ((" ").data)
    (("t1").data) ([]) (by decide) (by decide) (by decide) (by decide) (by decide)
  have heq : (("ok ").data) ++ ((("EVIDENCE:").data) ++
      (((" ").data) ++ ((("t1").data) ++ ([] : List Char)))) =
      ("ok EVIDENCE: t1").data := by decide
  have htrim : trimStr (rstripStr ((("ok ").data) ++ ([] : List Char))) =
      ("ok").data := by decide
  rw [heq, htrim] at h1
  exact ⟨h1.1, h1.2 (by decide),
    parseBulletLine_citation_spec.2 (("just text").data) (by decide)⟩

theorem dedupByLowerText_sublist (bs : List ParsedBullet) (seen : List (List Char)) :
    List.Sublist (dedupByLowerText bs seen) bs := by
  induction bs generalizing seen with
  | nil => exact List.Sublist.refl []
  | cons b rest ih =>
    rw [dedupByLowerText]
    by_cases h : toLowerStr b.text ∈ seen
    · rw [if_pos h]
      exact List.Sublist.cons b (ih seen)
    · rw [if_neg h]
      exact List.Sublist.cons₂ b (ih (toLowerStr b.text :: seen))

theorem dedupByLowerText_not_seen (bs : List ParsedBullet) (seen : List (List Char)) :
    ∀ x ∈ dedupByLowerText bs seen, toLowerStr x.text ∉ seen := by
  induction bs generalizing seen with
  | nil => intro x hx; exact absurd hx (List.not_mem_nil x)
  | cons b rest ih =>
    intro x hx
    rw [dedupByLowerText] at hx
    by_cases h : toLowerStr b.text ∈ seen
    · rw [if_pos h] at hx
      exact ih seen x hx
    · rw [if_neg h] at hx
      rcases List.mem_cons.mp hx with h1 | h2
      · rw [h1]; exact h
      · intro hmem
        exact ih (toLowerStr b.text :: seen) x h2 (List.mem_cons_of_mem _ hmem)

theorem dedupByLowerText_pairwise (bs : List ParsedBullet) (seen : List (List Char)) :
    List.Pairwise (fun a b => toLowerStr a.text ≠ toLowerStr b.text)
      (dedupByLowerText bs seen) := by
  induction bs generalizing seen with
  | nil => exact List.Pairwise.nil
  | cons b rest ih =>
    rw [dedupByLowerText]
    by_cases h : toLowerStr b.text ∈ seen
    · rw [if_pos h]
      exact ih seen
    · rw [if_neg h]
      refine List.Pairwise.cons ?_ (ih (toLowerStr b.text :: seen))
      intro x hx heq
      exact dedupByLowerText_not_seen rest (toLowerStr b.text :: seen) x hx
        (heq ▸ List.mem_cons_self _ _)

theorem skills_exp_key_ne (sk : List (List Char)) (e : List Char) :
    toLowerStr (skillsBullet sk).text ≠ toLowerStr (experienceBullet e).text := by
  intro h
  have hr : (toLowerStr (skillsBullet sk).text).head? = some 'r' := by
    rw [show (skillsBullet sk).text =
      'R' :: ((("esume skills: ").data) ++
        (joinSep ((", ").data) (sk.take 6) ++ (".").data)) from rfl]
    rfl
  have he : (toLowerStr (experienceBullet e).text).head? = some 'e' := by
    rw [show (experienceBullet e).text =
      'E' :: ((("xperience highlight: ").data) ++ experienceSnippet e) from rfl]
    rfl
  rw [h, he] at hr
  injection hr with hc
  exact absurd hc (by decide)

/-- C10: the merged strengths list has at most 3 bullets, no two of its
bullets have texts equal up to letter case, and the resume-derived bullets
(skills first, then experience) come before any AI-parsed strength, which
occupy only the remaining positions. -/
theorem mergeStrengthsWithResume_spec :
    (∀ (strengths : List ParsedBullet) (sk : List (List Char)) (e : List Char),
      (mergeStrengthsWithResume strengths sk e).length ≤ 3) ∧
    (∀ (strengths : List ParsedBullet) (sk : List (List Char)) (e : List Char),
      List.Pairwise (fun a b => toLowerStr a.text ≠ toLowerStr b.text)
        (mergeStrengthsWithResume strengths sk e)) ∧
    (∀ (strengths : List ParsedBullet) (sk : List (List Char)) (e : List Char),
      sk ≠ [] → e ≠ [] →
      ((mergeStrengthsWithResume strengths sk e).take 2 =
          [skillsBullet sk, experienceBullet e] ∧
        ∀ b ∈ (mergeStrengthsWithResume strengths sk e).drop 2, b ∈ strengths)) ∧
    (∀ (strengths : List ParsedBullet) (sk : List (List Char)),
      sk ≠ [] →
      ((mergeStrengthsWithResume strengths sk []).take 1 = [skillsBullet sk] ∧
        ∀ b ∈ (mergeStrengthsWithResume strengths sk []).drop 1, b ∈ strengths)) ∧
    (∀ (strengths : List ParsedBullet) (e : List Char),
      e ≠ [] →
      ((mergeStrengthsWithResume strengths [] e).take 1 = [experienceBullet e] ∧
        ∀ b ∈ (mergeStrengthsWithResume strengths [] e).drop 1, b ∈ strengths)) ∧
    (∀ (strengths : List ParsedBullet),
      ∀ b ∈ mergeStrengthsWithResume strengths [] [], b ∈ strengths) := by
  refine ⟨?_, ?_, ?_, ?_, ?_, ?_⟩
  · intro strengths sk e
    exact List.length_take_le 3 _
  · intro strengths sk e
    exact (dedupByLowerText_pairwise _ []).sublist (List.take_sublist 3 _)
  · intro strengths sk e hsk he
    have hd2 : dedupByLowerText (experienceBullet e :: strengths)
        [toLowerStr (skillsBullet sk).text] =
        experienceBullet e :: dedupByLowerText strengths
          [toLowerStr (experienceBullet e).text, toLowerStr (skillsBullet sk).text] := by
      rw [dedupByLowerText,
        if_neg (fun hm => skills_exp_key_ne sk e (List.mem_singleton.mp hm).symm)]
    have hmerge : mergeStrengthsWithResume strengths sk e =
        skillsBullet sk :: (experienceBullet e ::
          (dedupByLowerText strengths
            [toLowerStr (experienceBullet e).text,
             toLowerStr (skillsBullet sk).text]).take 1) := by
      rw [mergeStrengthsWithResume, if_neg hsk, if_neg he]
      show (dedupByLowerText (skillsBullet sk :: (experienceBullet e :: strengths))
        []).take 3 = _
      rw [dedupByLowerText, if_neg (List.not_mem_nil _), hd2]
      rfl
    refine ⟨by rw [hmerge]; rfl, ?_⟩
    intro b hb
    rw [hmerge] at hb
    have hb' : b ∈ dedupByLowerText strengths
        [toLowerStr (experienceBullet e).text, toLowerStr (skillsBullet sk).text] :=
      (List.take_sublist 1 _).mem hb
    exact (dedupByLowerText_sublist strengths _).mem hb'
  · intro strengths sk hsk
    have hmerge : mergeStrengthsWithResume strengths sk [] =
        skillsBullet sk ::
          (dedupByLowerText strengths [toLowerStr (skillsBullet sk).text]).take 2 := by
      rw [mergeStrengthsWithResume, if_neg hsk, if_pos rfl]
      show (dedupByLowerText (skillsBullet sk :: strengths) []).take 3 = _
      rw [dedupByLowerText, if_neg (List.not_mem_nil _)]
      rfl
    refine ⟨by rw [hmerge]; rfl, ?_⟩
    intro b hb
    rw [hmerge] at hb
    exact (dedupByLowerText_sublist strengths _).mem ((List.take_sublist 2 _).mem hb)
  · intro strengths e he
    have hmerge : mergeStrengthsWithResume strengths [] e =
        experienceBullet e ::
          (dedupByLowerText strengths [toLowerStr (experienceBullet e).text]).take 2 := by
      rw [mergeStrengthsWithResume, if_pos rfl, if_neg he]
      show (dedupByLowerText (experienceBullet e :: strengths) []).take 3 = _
      rw [dedupByLowerText, if_neg (List.not_mem_nil _)]
      rfl
    refine ⟨by rw [hmerge]; rfl, ?_⟩
    intro b hb
    rw [hmerge] at hb
    exact (dedupByLowerText_sublist strengths _).mem ((List.take_sublist 2 _).mem hb)
  · intro strengths b hb
    have hmerge : mergeStrengthsWithResume strengths [] [] =
        (dedupByLowerText strengths []).take 3 := by
      rw [mergeStrengthsWithResume, if_pos rfl, if_pos rfl]
      rfl
    rw [hmerge] at hb
    exact (dedupByLowerText_sublist strengths _).mem ((List.take_sublist 3 _).mem hb)

/-- C10 witness: the theorem applied to one AI strength, one skill, and a
nonempty experience string. -/
theorem mergeStrengthsWithResume_spec_witness :
    (mergeStrengthsWithResume [⟨("Solid tests").data, none⟩]
        [("python").data] (("Built APIs").data)).take 2 =
      [skillsBullet [("python").data], experienceBullet (("Built APIs").data)] ∧
    (mergeStrengthsWithResume [⟨("Solid tests").data, none⟩]
        [("python").data] (("Built APIs").data)).length ≤ 3 :=
  ⟨(mergeStrengthsWithResume_spec.2.2.1 [⟨("Solid tests").data, none⟩]
      [("python").data] (("Built APIs").data) (by decide) (by decide)).1,
    mergeStrengthsWithResume_spec.1 [⟨("Solid tests").data, none⟩]
      [("python").data] (("Built APIs").data)⟩
